import Mathlib

/-!
Verification of the `httpver` HTTP-version scanner.

The Go sources (`internal/httpver/check.go`, `cmd/http1/web.go`) are shallowly
embedded below. Strings are represented as `List Char` (`Str`); the standard
library's `url.Parse`, `net.ParseIP`, `net.SplitHostPort`, `net.JoinHostPort`
are modelled by executable Lean functions that follow the Go implementations
on the inputs this program can produce (documented simplifications: percent
escapes are not decoded and are treated as invalid in a host, Unicode case
folding is approximated by ASCII case folding, and the IPv6 literal check is a
simplified structural test).  Network and clock effects are made explicit:
every probe outcome is a value of an oracle structure (`Network`) passed to
`runChecks`, and the wall clock is a `Nat` argument to the cache operations.
-/

abbrev Str := List Char

/-- The `strings.HasPrefix` on our list representation. -/
def startsWithL : Str → Str → Bool
  | _, [] => true
  | [], _ :: _ => false
  | c :: s, p :: ps => c == p && startsWithL s ps

/-- The `strings.HasSuffix` on our list representation. -/
def endsWithL (s suffix : Str) : Bool :=
  startsWithL s.reverse suffix.reverse

/-- The `strings.Contains` (substring containment). -/
def containsSub : Str → Str → Bool
  | [], pat => pat.isEmpty
  | c :: cs, pat => startsWithL (c :: cs) pat || containsSub cs pat

/-- ASCII lower-casing of one character (model of `strings.ToLower`, which the
source only applies to ASCII data). -/
def toLowerChar (c : Char) : Char :=
  if 'A' ≤ c && c ≤ 'Z' then Char.ofNat (c.toNat + 32) else c

/-- The `strings.ToLower`, ASCII approximation. -/
def toLowerL (s : Str) : Str := s.map toLowerChar

/-- The `strings.Split s (sep as one char)`. -/
def splitOnChar (sep : Char) : Str → List Str
  | [] => [[]]
  | c :: cs =>
    let r := splitOnChar sep cs
    if c == sep then [] :: r
    else
      match r with
      | [] => [[c]]
      | g :: gs => (c :: g) :: gs

/-- Split a list at the first occurrence of `t`: returns the part before and
the part after that occurrence. -/
def splitAtFirstChar (t : Char) : Str → Option (Str × Str)
  | [] => none
  | c :: cs =>
    if c == t then some ([], cs)
    else (splitAtFirstChar t cs).map (fun p => (c :: p.1, p.2))

/-- Split a list at the last occurrence of `t`: returns the part before and
the part after that occurrence. -/
def splitAtLastChar (t : Char) : Str → Option (Str × Str)
  | [] => none
  | c :: cs =>
    match splitAtLastChar t cs with
    | some (b, a) => some (c :: b, a)
    | none => if c == t then some ([], cs) else none

def isDigitC (c : Char) : Bool := '0' ≤ c && c ≤ '9'

def isHexDigitC (c : Char) : Bool :=
  isDigitC c || ('a' ≤ c && c ≤ 'f') || ('A' ≤ c && c ≤ 'F')

/-! ## `internal/httpver/check.go`: hostname validation -/

/-- Character check inside one whostname label (`check.go:92-99`): ASCII
letters, digits and hyphen. -/
def isValidLabelChar (c : Char) : Bool :=
  ('a' ≤ c && c ≤ 'z') || ('A' ≤ c && c ≤ 'Z') || ('0' ≤ c && c ≤ '9') || c == '-'

/-- One DNS label check from the loop body of `isValidHostname`
(`check.go:84-101`): non-empty, at most 63 characters, no leading or trailing
hyphen, characters alphanumeric or hyphen. -/
def isValidLabel (label : Str) : Bool :=
  !label.isEmpty && label.length ≤ 63 &&
  !startsWithL label ['-'] && !endsWithL label ['-'] &&
  label.all isValidLabelChar

/-- The `isValidHostname` (`check.go:69-103`): length bound, optional trailing-dot
(FQDN) stripping, then per-label validation. -/
def isValidHostname (host : Str) : Bool :=
  if host.isEmpty || 253 < host.length then false
  else
    let host := if endsWithL host ['.'] then host.dropLast else host
    let labels := splitOnChar '.' host
    !labels.isEmpty && labels.all isValidLabel

/-- The hostname rule exactly as the claim words it: total length at most 253
and every label (splitting the host on every dot, with no special treatment of
a trailing dot) non-empty, at most 63 characters, alphanumeric or hyphen, no
leading or trailing hyphen. Used to compare the claim against the source's
`isValidHostname`. -/
def specValidHostname (host : Str) : Bool :=
  host.length ≤ 253 && (splitOnChar '.' host).all isValidLabel

/-- Model of `net.ParseIP` succeeding on an IPv4 literal: four decimal fields,
each 0-255 with no leading zeros. -/
def isIPv4 (host : Str) : Bool :=
  let fields := splitOnChar '.' host
  fields.length == 4 && fields.all (fun f =>
    !f.isEmpty && f.length ≤ 3 && f.all isDigitC &&
    !(1 < f.length && startsWithL f ['0']) &&
    f.foldl (fun n c => n * 10 + (c.toNat - '0'.toNat)) 0 ≤ 255)

/-- Model of `net.ParseIP` succeeding on an IPv6 literal, simplified: at least
one colon, only hex digits and colons, groups of at most four hex digits, and
either an empty group (a `::` abbreviation) or exactly eight groups.  The
claims never depend on the exact boundary behaviour of the IPv6 parser. -/
def isIPv6 (host : Str) : Bool :=
  let gs := splitOnChar ':' host
  host.contains ':' &&
  host.all (fun c => isHexDigitC c || c == ':') &&
  gs.all (fun g => g.length ≤ 4) && gs.length ≤ 9 &&
  (gs.any (·.isEmpty) || gs.length == 8)

/-- Model of `net.ParseIP host != nil` (`check.go:57`). -/
def parseIP (host : Str) : Bool := isIPv4 host || isIPv6 host

/-! ## Model of `net/url.Parse` (standard library, as used by `normalizeURL`
and `runChecks`) -/

/-- The slice of `url.URL` the program uses: `Scheme`, `Host` (host with
optional port, the Go `u.Host`) and the verbatim remainder of the URL
(path, query and fragment, which the program never inspects). -/
structure GoURL where
  scheme : Str
  hostport : Str
  rest : Str
deriving DecidableEq

/-- Characters `net/url` accepts unescaped in a host (the `encodeHost` case of
`shouldEscape`): unreserved characters plus the sub-delimiters and
`: [ ] < > "`.  `%` (an escape introducer) is treated as invalid here: percent
escapes are not modelled. -/
def isHostChar (c : Char) : Bool :=
  ('a' ≤ c && c ≤ 'z') || ('A' ≤ c && c ≤ 'Z') || ('0' ≤ c && c ≤ '9') ||
  [ '-', '.', '_', '~', '!', '$', '&', Char.ofNat 39, '(', ')', '*', '+',
    ',', ';', '=', ':', '[', ']', '<', '>', Char.ofNat 34 ].contains c

/-- A character that ends the authority component of a URL. -/
def isDelim (c : Char) : Bool := c == '/' || c == '?' || c == '#'

def notDelim (c : Char) : Bool := !isDelim c

/-- The `net/url`'s `parseHost` validity check: for a bracketed host the part
after the last `]` must be empty or `:` followed by digits; otherwise the part
from the last `:` on must be a valid optional port; and all characters must be
acceptable host characters. -/
def parseHostOK (hp : Str) : Bool :=
  hp.all isHostChar &&
  (if startsWithL hp ['['] then
    match splitAtLastChar ']' hp with
    | none => false
    | some (_, a) =>
      a.isEmpty ||
      (match a with
       | ':' :: ds => ds.all isDigitC
       | _ => false)
  else
    match splitAtLastChar ':' hp with
    | none => true
    | some (_, a) => a.all isDigitC)

/-- Parse the part of a URL following `scheme://`: the authority extends to
the first `/`, `?` or `#`; the remainder is kept verbatim. -/
def parseAuthority (scheme rem : Str) : Option GoURL :=
  let authority := rem.takeWhile notDelim
  let rest := rem.dropWhile notDelim
  if parseHostOK authority then some ⟨scheme, authority, rest⟩ else none

/-- Model of `url.Parse` for the inputs `normalizeURL` produces (they always
carry an `http://` or `https://` prefix once the default scheme has been
prepended; anything else is out of the modelled input space and parses to
`none`). -/
def urlParse (s : Str) : Option GoURL :=
  if startsWithL s ("http://".data) then
    parseAuthority ("http".data) (s.drop 7)
  else if startsWithL s ("https://".data) then
    parseAuthority ("https".data) (s.drop 8)
  else none

/-- The `u.String()`: scheme, `://`, host[:port] and the verbatim remainder. -/
def urlString (u : GoURL) : Str :=
  u.scheme ++ ("://".data) ++ u.hostport ++ u.rest

/-- The `net/url`'s internal `splitHostPort` (behind `u.Hostname()`/`u.Port()`):
strip a valid numeric port after the last colon, then strip surrounding
brackets. -/
def splitHostPortURL (hp : Str) : Str × Str :=
  let p :=
    match splitAtLastChar ':' hp with
    | some (b, a) => if a.all isDigitC then (b, a) else (hp, ([] : Str))
    | none => (hp, ([] : Str))
  if startsWithL p.1 ['['] && endsWithL p.1 [']'] then
    ((p.1.drop 1).dropLast, p.2)
  else p

/-- The `u.Hostname()`. -/
def urlHostname (hp : Str) : Str := (splitHostPortURL hp).1

/-- The `u.Port()`. -/
def urlPort (hp : Str) : Str := (splitHostPortURL hp).2

/-- The default-scheme step of `normalizeURL` (`check.go:30-32`). -/
def withDefaultScheme (raw : Str) : Str :=
  if !startsWithL raw ("http://".data) && !startsWithL raw ("https://".data) then
    ("https://".data) ++ raw
  else raw

/-- The `u.Scheme == ""` fix-up of `normalizeURL` (`check.go:37-39`);
unreachable for URLs produced by `urlParse` but kept for fidelity. -/
def schemeFix (u : GoURL) : GoURL :=
  if u.scheme.isEmpty then { u with scheme := "https".data } else u

/-- The `normalizeURL` (`check.go:29-64`): default the scheme, parse, reject an
empty host, reject `localhost` (case-insensitively), accept IP literals, and
otherwise require `isValidHostname`. -/
def normalizeURL (raw : Str) : Except Str Str :=
  let raw := withDefaultScheme raw
  match urlParse raw with
  | none => .error ("invalid URL".data)
  | some u0 =>
    let u := schemeFix u0
    if u.hostport.isEmpty then .error ("missing host in URL".data)
    else
      let host := urlHostname u.hostport
      if host.isEmpty then .error ("missing host in URL".data)
      else if toLowerL host == "localhost".data then
        .error ("localhost is not allowed as a scan target".data)
      else if !parseIP host && !isValidHostname host then
        .error ("invalid domain name in URL".data)
      else .ok (urlString u)

/-- Model of `net.SplitHostPort`: requires a port after the last colon; for a
bracketed host the first `]` must immediately precede that colon; an
unbracketed host must not contain a further colon. -/
def netSplitHostPort (hp : Str) : Option (Str × Str) :=
  match splitAtLastChar ':' hp with
  | none => none
  | some (b, a) =>
    if startsWithL hp ['['] then
      match splitAtFirstChar ']' hp with
      | none => none
      | some (b2, a2) => if a2 == ':' :: a then some (b2.drop 1, a) else none
    else
      if b.contains ':' then none else some (b, a)

/-- Model of `net.JoinHostPort`. -/
def joinHostPort (host port : Str) : Str :=
  if host.contains ':' then '[' :: host ++ ']' :: ':' :: port
  else host ++ ':' :: port

/-! ## `runChecks` and the four probes (`check.go:105-459`) -/

/-- The `formatHTTP10Error` (`check.go:109-121`).  The Go function inspects the
error chain for `syscall.ECONNREFUSED`; that inspection is modelled by the
`connRefused` flag of the probe outcome, and the fallback heuristic matches
the error text. -/
def formatHTTP10Error (msg : Str) (connRefused : Bool) : Str :=
  if connRefused then "not supported (good) - TCP connection refused".data
  else if containsSub (toLowerL msg) ("connection refused".data) then
    "not supported (good) - TCP connection refused".data
  else ("not supported (or probe failed): ".data) ++ msg

/-- The `VersionResult` (`check.go:124-133`). -/
structure VersionResult where
  Version : Str
  Supported : Bool := false
  Detail : Str := []
  Evidence : Str := []
  Error : Bool := false
deriving DecidableEq

/-- The `CheckResult` (`check.go:136-150`). -/
structure CheckResult where
  Target : Str
  URL : Str := []
  Port : Str := []
  Results : List VersionResult := []
  Score : Nat := 0
  Grade : Str := []
  ALPN : Str := []
  TLSVersion : Str := []
  Unresolved : Bool := false
deriving DecidableEq

/-- TLS connection-state evidence observed by the HTTP/2 probe: the negotiated
TLS version code (`tls.VersionTLS10`..`tls.VersionTLS13` are 769..772) and the
ALPN-selected protocol. -/
structure TLSInfo where
  version : Nat
  alpn : Str
deriving DecidableEq

/-- Outcome oracle for the HTTP/1.0, HTTP/1.1 and HTTP/3.0 probes: the request
either fails to build, or the round trip fails with an error message (plus
whether the error chain is a DNS not-found and whether it is a TCP connection
refusal), or a response arrives with the given wire protocol version. -/
inductive H1Outcome where
  | buildErr (msg : Str)
  | doErr (msg : Str) (dnsNotFound connRefused : Bool)
  | resp (protoMajor protoMinor : Nat) (proto : Str)
deriving DecidableEq

/-- Outcome oracle for the HTTP/2.0 probe (`h2Client.Get`): failure with an
error, or a response carrying optional TLS connection-state evidence. -/
inductive H2Outcome where
  | doErr (msg : Str) (dnsNotFound : Bool)
  | resp (protoMajor protoMinor : Nat) (proto : Str) (tls : Option TLSInfo)
deriving DecidableEq

/-- The network oracle for one target: the outcome each of the four probes
would observe. -/
structure Network where
  h10 : H1Outcome
  h11 : H1Outcome
  h2 : H2Outcome
  h3 : H1Outcome
deriving DecidableEq

/-- Whether an `H1Outcome` makes `markIfUnresolved` fire (`check.go:284-291`):
only a round-trip error whose chain is a DNS not-found. -/
def h1DNS : H1Outcome → Bool
  | .doErr _ dns _ => dns
  | _ => false

def h2DNS : H2Outcome → Bool
  | .doErr _ dns => dns
  | _ => false

/-- The HTTP/1.0 probe body (`check.go:294-333`). -/
def probeHTTP10 (o : H1Outcome) : VersionResult :=
  match o with
  | .buildErr msg =>
    { Version := "HTTP/1.0".data, Error := true,
      Detail := "request build failed".data, Evidence := msg }
  | .doErr msg _ refused =>
    { Version := "HTTP/1.0".data, Error := true, Evidence := msg,
      Detail := formatHTTP10Error msg refused }
  | .resp major minor proto =>
    if major == 1 then
      { Version := "HTTP/1.0".data, Supported := true,
        Detail :=
          if minor == 0 then "supported".data
          else ("server upgraded HTTP/1.0 request to ".data) ++ proto ++ (" (good)".data) }
    else
      { Version := "HTTP/1.0".data, Detail := ("server replied with ".data) ++ proto }

/-- The HTTP/1.1 probe body (`check.go:336-366`). -/
def probeHTTP11 (o : H1Outcome) : VersionResult :=
  match o with
  | .buildErr msg =>
    { Version := "HTTP/1.1".data, Error := true,
      Detail := "request build failed".data, Evidence := msg }
  | .doErr msg _ _ =>
    { Version := "HTTP/1.1".data, Error := true, Evidence := msg,
      Detail := ("not supported (or probe failed): ".data) ++ msg }
  | .resp major minor _ =>
    if major == 1 && minor == 1 then
      { Version := "HTTP/1.1".data, Supported := true, Detail := "supported".data }
    else
      match o with
      | .resp _ _ proto =>
        { Version := "HTTP/1.1".data, Detail := ("server replied with ".data) ++ proto }
      | _ => { Version := "HTTP/1.1".data }

/-- The `switch cs.Version` mapping (`check.go:382-393`). -/
def tlsVersionName (v : Nat) : Str :=
  if v == 772 then "TLS 1.3".data
  else if v == 771 then "TLS 1.2".data
  else if v == 770 then "TLS 1.1".data
  else if v == 769 then "TLS 1.0".data
  else []

/-- What the HTTP/2.0 probe contributes: its `VersionResult` plus the shared
`hasH2`, `tlsProto` and `alpn` aggregation variables (`check.go:369-405`). -/
structure H2Probe where
  vr : VersionResult
  hasH2 : Bool
  tlsProto : Str
  alpn : Str
deriving DecidableEq

def probeHTTP2 (o : H2Outcome) : H2Probe :=
  match o with
  | .doErr msg _ =>
    { vr := { Version := "HTTP/2.0".data, Error := true, Evidence := msg,
              Detail := ("not supported (or probe failed): ".data) ++ msg },
      hasH2 := false, tlsProto := [], alpn := [] }
  | .resp major _ proto tls =>
    let tp := match tls with
      | some cs => (tlsVersionName cs.version, cs.alpn)
      | none => ([], [])
    if major == 2 then
      { vr := { Version := "HTTP/2.0".data, Supported := true, Detail := "supported".data },
        hasH2 := true, tlsProto := tp.1, alpn := tp.2 }
    else
      { vr := { Version := "HTTP/2.0".data, Detail := ("server replied with ".data) ++ proto },
        hasH2 := false, tlsProto := tp.1, alpn := tp.2 }

/-- What the HTTP/3.0 probe contributes (`check.go:408-442`).  Note that a
failed round trip does not set `Error`: only a request-build failure does. -/
structure H3Probe where
  vr : VersionResult
  hasH3 : Bool
deriving DecidableEq

def probeHTTP3 (o : H1Outcome) : H3Probe :=
  match o with
  | .buildErr msg =>
    { vr := { Version := "HTTP/3.0".data, Error := true,
              Detail := "request build failed".data, Evidence := msg },
      hasH3 := false }
  | .doErr msg _ _ =>
    { vr := { Version := "HTTP/3.0".data, Evidence := msg,
              Detail := "not supported – enable HTTP/3 to offer a more secure option.".data },
      hasH3 := false }
  | .resp major _ proto =>
    if major == 3 then
      { vr := { Version := "HTTP/3.0".data, Supported := true, Detail := "supported".data },
        hasH3 := true }
    else
      { vr := { Version := "HTTP/3.0".data, Detail := ("server replied with ".data) ++ proto },
        hasH3 := false }

/-- Modelled from the spec: `computeMinimalGrade` is called from `runChecks`
(`check.go:453`) but its definition is not among the provided source files.
The definition below follows the spec's grading table (§4.4 GradeEngine):
`hasH3` gives `(95, "A")`; otherwise `hasH2` with TLS 1.3 gives `(90, "B")`;
`hasH2` with any other TLS string gives `(80, "C")`; neither gives
`(40, "F")`. -/
def computeMinimalGrade (hasH3 hasH2 : Bool) (tlsProto : Str) : Nat × Str :=
  if hasH3 then (95, "A".data)
  else if hasH2 then
    (if tlsProto == "TLS 1.3".data then (90, "B".data) else (80, "C".data))
  else (40, "F".data)

/-- The port-resolution steps of `runChecks` (`check.go:196-207`): the
override port wins, then a port embedded in the URL, then the scheme
default. -/
def resolvePort (overridePort : Str) (u : GoURL) : Str :=
  let port := if overridePort.isEmpty then urlPort u.hostport else overridePort
  if port.isEmpty then
    (if u.scheme == "http".data then "80".data else "443".data)
  else port

/-- Rebuilding the request URL with an explicit port (`check.go:210-219`). -/
def urlWithPortOf (u : GoURL) (port : Str) : Str :=
  let host := match netSplitHostPort u.hostport with
    | some p => p.1
    | none => u.hostport
  let hostport := if !host.isEmpty then joinHostPort host port else u.hostport
  u.scheme ++ ("://".data) ++ hostport ++ u.rest

/-- The `runChecks` (`check.go:166-459`), with the network as an explicit oracle.
The concurrent fan-out/join of the four probes is modelled by evaluating the
four probe bodies and joining their contributions; the `http10URL` computed at
`check.go:223-230` only chooses where the HTTP/1.0 request is sent and does
not influence the result record, whose fields all derive from the probe
outcomes supplied by the oracle. -/
def runChecks (net : Network) (target overridePort : Str) : CheckResult :=
  match normalizeURL target with
  | .error e =>
    { Target := target,
      Results := [{ Version := "error".data, Supported := false, Error := true,
                    Detail := ("invalid URL: ".data) ++ e }] }
  | .ok norm =>
    match urlParse norm with
    | none =>
      { Target := target,
        Results := [{ Version := "error".data, Supported := false, Error := true,
                      Detail := "invalid URL after normalization".data }] }
    | some u =>
      let port := resolvePort overridePort u
      let urlWithPort := urlWithPortOf u port
      let p2 := probeHTTP2 net.h2
      let p3 := probeHTTP3 net.h3
      let unresolved := h1DNS net.h10 || h1DNS net.h11 || h2DNS net.h2 || h1DNS net.h3
      let sg := computeMinimalGrade p3.hasH3 p2.hasH2 p2.tlsProto
      { Target := target, URL := urlWithPort, Port := port,
        Results := [probeHTTP10 net.h10, probeHTTP11 net.h11, p2.vr, p3.vr],
        Score := sg.1, Grade := sg.2,
        ALPN := p2.alpn, TLSVersion := p2.tlsProto,
        Unresolved := unresolved }

/-! ## `cmd/http1/web.go`: the result cache -/

/-- The `cacheTTL = 4 * time.Hour`, in nanoseconds (`web.go:22`). -/
def cacheTTL : Nat := 4 * 3600 * 1000000000

/-- The `cacheEntry` (`web.go:25-30`). -/
structure CacheEntry where
  results : List CheckResult
  scannedAt : Nat
  expiresAt : Nat
  hidden : Bool
deriving DecidableEq

/-- The `resultCache` (`web.go:32-36`): the map is modelled as a lookup function,
the MRU index as a list of keys (most recent last).  The mutex only serializes
access and has no sequential content. -/
structure ResultCache where
  data : Str → Option CacheEntry
  recentKeys : List Str

/-- The `newResultCache` (`web.go:38-42`). -/
def newResultCache : ResultCache := ⟨fun _ => none, []⟩

/-- The `resultCache.get` (`web.go:44-54`), with `time.Now()` passed explicitly. -/
def ResultCache.get (c : ResultCache) (now : Nat) (key : Str) :
    Option (List CheckResult × Nat) :=
  match c.data key with
  | none => none
  | some entry =>
    if entry.expiresAt < now then none
    else some (entry.results, entry.scannedAt)

/-- The `maxRecentKeys` (`web.go:78`). -/
def maxRecentKeys : Nat := 32

/-- The `resultCache.set` (`web.go:56-91`): sweep expired entries, write the new
entry (hidden iff not included in the recency index), and if included,
remove any prior occurrence of the key from the MRU list, append it, and
truncate to the most recent `maxRecentKeys` keys. -/
def ResultCache.set (c : ResultCache) (now : Nat) (key : Str)
    (results : List CheckResult) (includeInRecent : Bool) : ResultCache :=
  let swept : Str → Option CacheEntry := fun k =>
    match c.data k with
    | none => none
    | some e => if e.expiresAt < now then none else some e
  let entry : CacheEntry := ⟨results, now, now + cacheTTL, !includeInRecent⟩
  let data' : Str → Option CacheEntry := fun k =>
    if k = key then some entry else swept k
  let recent' :=
    if includeInRecent then
      let appended := c.recentKeys.erase key ++ [key]
      if maxRecentKeys < appended.length then
        appended.drop (appended.length - maxRecentKeys)
      else appended
    else c.recentKeys
  ⟨data', recent'⟩

/-- The `recentSnapshot` (`web.go:93-101`). -/
structure recentSnapshot where
  Target : Str
  URL : Str
  Port : Str
  Results : List VersionResult
  ScannedAt : Nat
  Score : Nat
  Grade : Str
deriving DecidableEq

/-- Building one snapshot row from a cached `CheckResult` (`web.go:121-130`). -/
def mkSnapshot (scannedAt : Nat) (cr : CheckResult) : recentSnapshot :=
  { Target := cr.Target, URL := cr.URL, Port := cr.Port,
    Results := cr.Results, ScannedAt := scannedAt,
    Score := cr.Score, Grade := cr.Grade }

/-- The walk of `recentSnapshots` (`web.go:113-135`) over the reversed MRU
list: stop once `limit` rows are collected, skip missing, expired or hidden
entries, and flatten each surviving entry's results, truncating at the
limit. -/
def snapshotsLoop (dat : Str → Option CacheEntry) (now limit : Nat) :
    List Str → List recentSnapshot → List recentSnapshot
  | [], acc => acc
  | k :: ks, acc =>
    if limit ≤ acc.length then acc
    else
      match dat k with
      | none => snapshotsLoop dat now limit ks acc
      | some entry =>
        if entry.expiresAt < now || entry.hidden then
          snapshotsLoop dat now limit ks acc
        else
          snapshotsLoop dat now limit ks
            (acc ++ (entry.results.map (mkSnapshot entry.scannedAt)).take (limit - acc.length))

/-- The `resultCache.recentSnapshots` (`web.go:103-137`). -/
def ResultCache.recentSnapshots (c : ResultCache) (now limit : Nat) :
    List recentSnapshot :=
  if limit = 0 then []
  else snapshotsLoop c.data now limit c.recentKeys.reverse []

/-- The `hasSuccessfulResult` (`web.go:513-525`): some target that is not
DNS-unresolved has some supported protocol result. -/
def hasSuccessfulResult (results : List CheckResult) : Bool :=
  results.any (fun cr => !cr.Unresolved && cr.Results.any (·.Supported))

/-- The cache-write slice of `handleScan`'s fresh-scan branch
(`web.go:398-404`): the scan is added to the recency index only when the user
did not ask to hide it and it produced at least one successful protocol
result; it is cached either way. -/
def handleScanCacheWrite (c : ResultCache) (now : Nat) (key : Str)
    (results : List CheckResult) (hideFromRecent : Bool) : ResultCache :=
  let includeInRecent := !hideFromRecent && hasSuccessfulResult results
  c.set now key results includeInRecent

/-! ## Helper lemmas about the string helpers -/

theorem splitAtLastChar_eq_none {t : Char} : ∀ {l : Str},
    splitAtLastChar t l = none → t ∉ l := by
  intro l
  induction l with
  | nil => intro _ h; cases h
  | cons c cs ih =>
    intro h
    rw [splitAtLastChar] at h
    cases hcs : splitAtLastChar t cs with
    | some p => rw [hcs] at h; cases h
    | none =>
      rw [hcs] at h
      by_cases hc : c = t
      · simp [hc] at h
      · intro hm
        rcases List.mem_cons.mp hm with h1 | h2
        · exact hc h1.symm
        · exact ih hcs h2

theorem splitAtLastChar_none_of_not_mem {t : Char} : ∀ {l : Str},
    t ∉ l → splitAtLastChar t l = none := by
  intro l
  induction l with
  | nil => intro _; rfl
  | cons c cs ih =>
    intro h
    have hc : ¬(c = t) := fun hct => h (hct ▸ List.mem_cons_self c cs)
    have hcs : t ∉ cs := fun hm => h (List.mem_cons_of_mem c hm)
    rw [splitAtLastChar, ih hcs]
    simp [hc]

theorem splitAtLastChar_some {t : Char} : ∀ {l b a : Str},
    splitAtLastChar t l = some (b, a) → l = b ++ t :: a ∧ t ∉ a := by
  intro l
  induction l with
  | nil => intro b a h; cases h
  | cons c cs ih =>
    intro b a h
    rw [splitAtLastChar] at h
    cases hcs : splitAtLastChar t cs with
    | some p =>
      rw [hcs] at h
      obtain ⟨b', a'⟩ := p
      injection h with h'
      obtain ⟨hl, hna⟩ := ih hcs
      cases h'
      exact ⟨by rw [hl]; rfl, hna⟩
    | none =>
      rw [hcs] at h
      by_cases hc : c = t
      · simp only [hc, beq_self_eq_true, if_true] at h
        injection h with h'
        cases h'
        exact ⟨by rw [hc, List.nil_append], splitAtLastChar_eq_none hcs⟩
      · simp [hc] at h

theorem splitAtLastChar_append {t : Char} (a : Str) (h : t ∉ a) : ∀ (b : Str),
    splitAtLastChar t (b ++ t :: a) = some (b, a) := by
  intro b
  induction b with
  | nil =>
    rw [List.nil_append, splitAtLastChar, splitAtLastChar_none_of_not_mem h]
    simp
  | cons c b ih =>
    rw [List.cons_append, splitAtLastChar, ih]

theorem splitAtFirstChar_some {t : Char} : ∀ {l b a : Str},
    splitAtFirstChar t l = some (b, a) → l = b ++ t :: a ∧ t ∉ b := by
  intro l
  induction l with
  | nil => intro b a h; cases h
  | cons c cs ih =>
    intro b a h
    rw [splitAtFirstChar] at h
    by_cases hc : c = t
    · simp only [hc, beq_self_eq_true, if_true] at h
      injection h with h'
      cases h'
      exact ⟨by rw [hc, List.nil_append], List.not_mem_nil t⟩
    · simp only [beq_eq_false_iff_ne, ne_eq, hc, not_false_eq_true, if_neg,
        beq_iff_eq] at h
      cases hcs : splitAtFirstChar t cs with
      | none => rw [hcs] at h; cases h
      | some p =>
        rw [hcs] at h
        obtain ⟨b', a'⟩ := p
        simp only [Option.map_some'] at h
        injection h with h'
        obtain ⟨hl, hnb⟩ := ih hcs
        cases h'
        constructor
        · rw [hl]; rfl
        · intro hm
          rcases List.mem_cons.mp hm with h1 | h2
          · exact hc h1.symm
          · exact hnb h2

theorem splitAtFirstChar_append {t : Char} (a : Str) : ∀ (b : Str), t ∉ b →
    splitAtFirstChar t (b ++ t :: a) = some (b, a) := by
  intro b
  induction b with
  | nil =>
    intro _
    rw [List.nil_append, splitAtFirstChar]
    simp
  | cons c b ih =>
    intro h
    have hc : ¬(c = t) := fun hct => h (hct ▸ List.mem_cons_self c b)
    have hb : t ∉ b := fun hm => h (List.mem_cons_of_mem c hm)
    rw [List.cons_append, splitAtFirstChar, ih hb]
    simp [hc]

theorem startsWithL_append_self : ∀ (p t : Str), startsWithL (p ++ t) p = true := by
  intro p
  induction p with
  | nil => intro t; cases t <;> rfl
  | cons c p ih => intro t; rw [List.cons_append, startsWithL, ih]; simp

/-! ## Lemmas about the URL model -/

theorem parseAuthority_elim {scheme r : Str} {u : GoURL}
    (h : parseAuthority scheme r = some u) :
    u.scheme = scheme ∧ parseHostOK u.hostport = true ∧ u.hostport ++ u.rest = r ∧
    parseAuthority scheme (u.hostport ++ u.rest) = some u := by
  simp only [parseAuthority] at h
  by_cases hOK : parseHostOK (r.takeWhile notDelim) = true
  · rw [if_pos hOK] at h
    injection h with h'
    subst h'
    refine ⟨rfl, hOK, by rw [List.takeWhile_append_dropWhile], ?_⟩
    simp only [parseAuthority]
    rw [List.takeWhile_append_dropWhile, if_pos hOK]
  · rw [if_neg hOK] at h
    cases h

theorem startsWithL_https_not_http (x : Str) :
    startsWithL (("https://".data) ++ x) ("http://".data) = false := rfl

theorem urlParse_elim {s : Str} {u : GoURL} (h : urlParse s = some u) :
    (u.scheme = "http".data ∨ u.scheme = "https".data) ∧
    parseHostOK u.hostport = true ∧
    urlParse (urlString u) = some u := by
  unfold urlParse at h
  by_cases h1 : startsWithL s ("http://".data) = true
  · rw [if_pos h1] at h
    obtain ⟨hsc, hOK, _, hPA⟩ := parseAuthority_elim h
    refine ⟨Or.inl hsc, hOK, ?_⟩
    have hfold : ("http".data : Str) ++ ("://".data) = ("http://".data) := rfl
    have hUS : urlString u = ("http://".data) ++ (u.hostport ++ u.rest) := by
      rw [urlString, hsc]
      simp only [← hfold, List.append_assoc]
      rfl
    rw [hUS]
    unfold urlParse
    rw [if_pos (startsWithL_append_self _ _)]
    have hdrop : ((("http://".data) : Str) ++ (u.hostport ++ u.rest)).drop 7
        = u.hostport ++ u.rest := by
      have hlen : (("http://".data : Str)).length = 7 := rfl
      rw [← hlen, List.drop_left]
    rw [hdrop]
    exact hPA
  · rw [if_neg h1] at h
    by_cases h2 : startsWithL s ("https://".data) = true
    · rw [if_pos h2] at h
      obtain ⟨hsc, hOK, _, hPA⟩ := parseAuthority_elim h
      refine ⟨Or.inr hsc, hOK, ?_⟩
      have hfold : ("https".data : Str) ++ ("://".data) = ("https://".data) := rfl
      have hUS : urlString u = ("https://".data) ++ (u.hostport ++ u.rest) := by
        rw [urlString, hsc]
        simp only [← hfold, List.append_assoc]
        rfl
      rw [hUS]
      unfold urlParse
      rw [if_neg (by rw [startsWithL_https_not_http]; exact Bool.false_ne_true)]
      rw [if_pos (startsWithL_append_self _ _)]
      have hdrop : ((("https://".data) : Str) ++ (u.hostport ++ u.rest)).drop 8
          = u.hostport ++ u.rest := by
        have hlen : (("https://".data : Str)).length = 8 := rfl
        rw [← hlen, List.drop_left]
      rw [hdrop]
      exact hPA
    · rw [if_neg h2] at h
      cases h

theorem schemeFix_of_parse {s : Str} {u : GoURL} (h : urlParse s = some u) :
    schemeFix u = u := by
  rcases (urlParse_elim h).1 with hsc | hsc <;>
  · rw [schemeFix, if_neg]
    rw [hsc]
    decide

theorem urlHostname_nil : urlHostname [] = [] := rfl

theorem normalizeURL_ok_elim {raw norm : Str} (h : normalizeURL raw = .ok norm) :
    ∃ u, urlParse (withDefaultScheme raw) = some u ∧ schemeFix u = u ∧
      norm = urlString u ∧ urlParse norm = some u ∧
      urlHostname u.hostport ≠ [] ∧
      toLowerL (urlHostname u.hostport) ≠ "localhost".data ∧
      (parseIP (urlHostname u.hostport) = true ∨
        isValidHostname (urlHostname u.hostport) = true) := by
  simp only [normalizeURL] at h
  cases hp : urlParse (withDefaultScheme raw) with
  | none => rw [hp] at h; cases h
  | some u0 =>
    rw [hp] at h
    dsimp only at h
    have hfix : schemeFix u0 = u0 := schemeFix_of_parse hp
    rw [hfix] at h
    refine ⟨u0, rfl, hfix, ?_⟩
    split_ifs at h with h1 h2 h3 h4
    injection h with h'
    subst h'
    refine ⟨rfl, (urlParse_elim hp).2.2, ?_, ?_, ?_⟩
    · intro he
      exact h2 (by rw [he]; rfl)
    · intro he
      exact h3 (by rw [he]; simp)
    · rcases Bool.eq_false_or_eq_true (parseIP (urlHostname u0.hostport)) with hip | hip
      · exact Or.inl hip
      · rcases Bool.eq_false_or_eq_true (isValidHostname (urlHostname u0.hostport))
          with hv | hv
        · exact Or.inr hv
        · exact absurd (by rw [hip, hv]; rfl) h4

theorem normalizeURL_ok_of {raw : Str} {u : GoURL}
    (hp : urlParse (withDefaultScheme raw) = some u)
    (h2 : urlHostname u.hostport ≠ [])
    (h3 : toLowerL (urlHostname u.hostport) ≠ "localhost".data)
    (h4 : parseIP (urlHostname u.hostport) = true ∨
      isValidHostname (urlHostname u.hostport) = true) :
    normalizeURL raw = .ok (urlString u) := by
  have hfix : schemeFix u = u := schemeFix_of_parse hp
  have h1 : u.hostport ≠ [] := by
    intro he
    exact h2 (by rw [he, urlHostname_nil])
  simp only [normalizeURL, hp, hfix]
  rw [if_neg (by simpa using h1)]
  rw [if_neg (by simpa using h2)]
  rw [if_neg (by simpa using h3)]
  rw [if_neg (by rcases h4 with h4 | h4 <;> simp [h4])]

/-! ## Evaluation lemmas for `runChecks` -/

theorem runChecks_error {net : Network} {target op e : Str}
    (h : normalizeURL target = .error e) :
    runChecks net target op =
      { Target := target,
        Results := [{ Version := "error".data, Supported := false, Error := true,
                      Detail := ("invalid URL: ".data) ++ e }] } := by
  simp only [runChecks, h]

theorem runChecks_ok {net : Network} {target op norm : Str} {u : GoURL}
    (h : normalizeURL target = .ok norm) (hu : urlParse norm = some u) :
    runChecks net target op =
      { Target := target, URL := urlWithPortOf u (resolvePort op u),
        Port := resolvePort op u,
        Results := [probeHTTP10 net.h10, probeHTTP11 net.h11,
          (probeHTTP2 net.h2).vr, (probeHTTP3 net.h3).vr],
        Score := (computeMinimalGrade (probeHTTP3 net.h3).hasH3
          (probeHTTP2 net.h2).hasH2 (probeHTTP2 net.h2).tlsProto).1,
        Grade := (computeMinimalGrade (probeHTTP3 net.h3).hasH3
          (probeHTTP2 net.h2).hasH2 (probeHTTP2 net.h2).tlsProto).2,
        ALPN := (probeHTTP2 net.h2).alpn,
        TLSVersion := (probeHTTP2 net.h2).tlsProto,
        Unresolved := h1DNS net.h10 || h1DNS net.h11 || h2DNS net.h2 || h1DNS net.h3 } := by
  simp only [runChecks, h, hu]

theorem probeHTTP10_version (o : H1Outcome) :
    (probeHTTP10 o).Version = "HTTP/1.0".data := by
  cases o with
  | buildErr m => rfl
  | doErr m d r => rfl
  | resp a b p => rw [probeHTTP10]; split <;> rfl

theorem probeHTTP11_version (o : H1Outcome) :
    (probeHTTP11 o).Version = "HTTP/1.1".data := by
  cases o with
  | buildErr m => rfl
  | doErr m d r => rfl
  | resp a b p => rw [probeHTTP11]; split <;> rfl

theorem probeHTTP2_version (o : H2Outcome) :
    (probeHTTP2 o).vr.Version = "HTTP/2.0".data := by
  cases o with
  | doErr m d => rfl
  | resp a b p t => simp only [probeHTTP2]; split <;> rfl

theorem probeHTTP3_version (o : H1Outcome) :
    (probeHTTP3 o).vr.Version = "HTTP/3.0".data := by
  cases o with
  | buildErr m => rfl
  | doErr m d r => rfl
  | resp a b p => rw [probeHTTP3]; split <;> rfl

theorem probeHTTP10_not_both (o : H1Outcome) :
    ((probeHTTP10 o).Supported && (probeHTTP10 o).Error) = false := by
  cases o with
  | buildErr m => rfl
  | doErr m d r => rfl
  | resp a b p => rw [probeHTTP10]; split <;> rfl

theorem probeHTTP11_not_both (o : H1Outcome) :
    ((probeHTTP11 o).Supported && (probeHTTP11 o).Error) = false := by
  cases o with
  | buildErr m => rfl
  | doErr m d r => rfl
  | resp a b p => rw [probeHTTP11]; split <;> rfl

theorem probeHTTP2_not_both (o : H2Outcome) :
    ((probeHTTP2 o).vr.Supported && (probeHTTP2 o).vr.Error) = false := by
  cases o with
  | doErr m d => rfl
  | resp a b p t => simp only [probeHTTP2]; split <;> rfl

theorem probeHTTP3_not_both (o : H1Outcome) :
    ((probeHTTP3 o).vr.Supported && (probeHTTP3 o).vr.Error) = false := by
  cases o with
  | buildErr m => rfl
  | doErr m d r => rfl
  | resp a b p => rw [probeHTTP3]; split <;> rfl

/-! ## Claim C1: the grading table -/

/-- C1: the grading function is pure and deterministic and implements exactly
the spec's table: `hasH3` gives `(95, "A")`; otherwise `hasH2` with TLS 1.3
gives `(90, "B")`; `hasH2` with any other TLS string (TLS 1.2, empty, unknown)
gives `(80, "C")`; neither gives `(40, "F")`; and no combination of inputs
produces any other pair. -/
theorem C1_grade_table (h3 h2 : Bool) (tls : Str) :
    (h3 = true → computeMinimalGrade h3 h2 tls = (95, "A".data)) ∧
    (h3 = false → h2 = true → tls = "TLS 1.3".data →
      computeMinimalGrade h3 h2 tls = (90, "B".data)) ∧
    (h3 = false → h2 = true → tls ≠ "TLS 1.3".data →
      computeMinimalGrade h3 h2 tls = (80, "C".data)) ∧
    (h3 = false → h2 = false → computeMinimalGrade h3 h2 tls = (40, "F".data)) ∧
    (computeMinimalGrade h3 h2 tls = (95, "A".data) ∨
     computeMinimalGrade h3 h2 tls = (90, "B".data) ∨
     computeMinimalGrade h3 h2 tls = (80, "C".data) ∨
     computeMinimalGrade h3 h2 tls = (40, "F".data)) := by
  cases h3 with
  | true => simp [computeMinimalGrade]
  | false =>
    cases h2 with
    | false => simp [computeMinimalGrade]
    | true =>
      by_cases ht : tls = "TLS 1.3".data
      · simp [computeMinimalGrade, ht]
      · simp [computeMinimalGrade, ht]

theorem C1_grade_table_witness :
    computeMinimalGrade true false [] = (95, "A".data) ∧
    computeMinimalGrade false true ("TLS 1.3".data) = (90, "B".data) ∧
    computeMinimalGrade false true ("TLS 1.2".data) = (80, "C".data) ∧
    computeMinimalGrade false false [] = (40, "F".data) :=
  ⟨(C1_grade_table true false []).1 rfl,
   (C1_grade_table false true ("TLS 1.3".data)).2.1 rfl rfl rfl,
   (C1_grade_table false true ("TLS 1.2".data)).2.2.1 rfl rfl (by decide),
   (C1_grade_table false false []).2.2.2.1 rfl rfl⟩

/-! ## Claim C2: result list shape -/

/-- C2: for every input, `runChecks` returns `Results` of exactly length 4 in
the fixed order HTTP/1.0, HTTP/1.1, HTTP/2.0, HTTP/3.0 when the input passes
validation (`normalizeURL` succeeds), and a single sentinel `VersionResult`
with version `"error"` and the score and grade left at their zero values when
validation fails. -/
theorem C2_results_shape (net : Network) (target overridePort : Str) :
    (∀ e, normalizeURL target = .error e →
      (runChecks net target overridePort).Results.map VersionResult.Version
          = ["error".data] ∧
        (runChecks net target overridePort).Score = 0 ∧
        (runChecks net target overridePort).Grade = []) ∧
    (∀ norm, normalizeURL target = .ok norm →
      (runChecks net target overridePort).Results.map VersionResult.Version
        = ["HTTP/1.0".data, "HTTP/1.1".data, "HTTP/2.0".data, "HTTP/3.0".data]) := by
  constructor
  · intro e he
    rw [runChecks_error he]
    exact ⟨rfl, rfl, rfl⟩
  · intro norm hn
    obtain ⟨u, -, -, -, hu, -, -, -⟩ := normalizeURL_ok_elim hn
    rw [runChecks_ok hn hu]
    simp [probeHTTP10_version, probeHTTP11_version, probeHTTP2_version,
      probeHTTP3_version]

/-- A network oracle on which every probe sees a successful response of the
probed version. -/
def netProbeOk : Network :=
  ⟨.resp 1 0 ("HTTP/1.0".data), .resp 1 1 ("HTTP/1.1".data),
   .resp 2 0 ("HTTP/2.0".data) (some ⟨772, "h2".data⟩), .resp 3 0 ("HTTP/3.0".data)⟩

theorem C2_results_shape_witness :
    (runChecks netProbeOk ("cloudflare.com".data) []).Results.map VersionResult.Version
      = ["HTTP/1.0".data, "HTTP/1.1".data, "HTTP/2.0".data, "HTTP/3.0".data] ∧
    (runChecks netProbeOk ("bad host".data) []).Results.map VersionResult.Version
      = ["error".data] :=
  ⟨(C2_results_shape netProbeOk ("cloudflare.com".data) []).2
      ("https://cloudflare.com".data) rfl,
   ((C2_results_shape netProbeOk ("bad host".data) []).1
      ("invalid URL".data) rfl).1⟩

/-! ## Claim C5: `supported` and `error` are never both set -/

/-- C5: in every `VersionResult` produced by `runChecks` — the four probe
results on the valid path and the sentinel on the invalid path — `Supported`
and `Error` are never both true, for every input and every probe outcome. -/
theorem C5_supported_error_disjoint (net : Network) (target op : Str) :
    (runChecks net target op).Results.all
      (fun vr => !(vr.Supported && vr.Error)) = true := by
  cases hn : normalizeURL target with
  | error e => rw [runChecks_error hn]; rfl
  | ok norm =>
    obtain ⟨u, -, -, -, hu, -, -, -⟩ := normalizeURL_ok_elim hn
    rw [runChecks_ok hn hu]
    simp only [List.all_cons, List.all_nil, Bool.and_true]
    rw [probeHTTP10_not_both, probeHTTP11_not_both, probeHTTP2_not_both,
      probeHTTP3_not_both]
    rfl

/-! ## Claim C3: DNS-unresolved targets -/

/-- The DNS error message used in concrete counterexamples. -/
def dnsMsg : Str := "lookup nxdomain.test: no such host".data

/-- A network oracle where every probe fails with a DNS not-found error. -/
def netDNSFail : Network :=
  ⟨.doErr dnsMsg true false, .doErr dnsMsg true false,
   .doErr dnsMsg true, .doErr dnsMsg true false⟩

/-- C3 is false as stated: on a target whose hostname does not resolve (all
four probes fail with a DNS not-found error), `unresolved` is set but the
HTTP/3.0 result keeps `error = false` — the HTTP/3 probe only flags `Error`
on a request-build failure, never on a failed round trip
(`check.go:422-429`).  So not all four results have `error = true`. -/
theorem C3_counterexample :
    (runChecks netDNSFail ("nxdomain.test".data) []).Unresolved = true ∧
    (runChecks netDNSFail ("nxdomain.test".data) []).Results.map VersionResult.Error
      = [true, true, true, false] :=
  ⟨rfl, rfl⟩

/-- C3 (amended): for every target whose hostname does not resolve via DNS
(every probe reports a DNS not-found error), the `CheckResult` has
`unresolved = true`; the HTTP/1.0, HTTP/1.1 and HTTP/2.0 results have
`error = true` and carry the DNS error as evidence; the HTTP/3.0 result also
carries the DNS error as evidence but keeps `error = false` (its round-trip
failures are presented as plain "not supported"); nothing is supported. -/
theorem C3_dns_unresolved (net : Network) (target op norm : Str)
    (m0 m1 m2 m3 : Str) (r0 r1 r3 : Bool)
    (hn : normalizeURL target = .ok norm)
    (h0 : net.h10 = .doErr m0 true r0)
    (h1 : net.h11 = .doErr m1 true r1)
    (h2 : net.h2 = .doErr m2 true)
    (h3 : net.h3 = .doErr m3 true r3) :
    (runChecks net target op).Unresolved = true ∧
    (runChecks net target op).Results.map VersionResult.Error
      = [true, true, true, false] ∧
    (runChecks net target op).Results.map VersionResult.Evidence
      = [m0, m1, m2, m3] ∧
    (runChecks net target op).Results.map VersionResult.Supported
      = [false, false, false, false] := by
  obtain ⟨u, -, -, -, hu, -, -, -⟩ := normalizeURL_ok_elim hn
  rw [runChecks_ok hn hu, h0, h1, h2, h3]
  simp [probeHTTP10, probeHTTP11, probeHTTP2, probeHTTP3, h1DNS, h2DNS]

theorem C3_dns_unresolved_witness :
    (runChecks netDNSFail ("nxdomain.test".data) []).Results.map VersionResult.Evidence
      = [dnsMsg, dnsMsg, dnsMsg, dnsMsg] :=
  (C3_dns_unresolved netDNSFail ("nxdomain.test".data) []
    ("https://nxdomain.test".data) dnsMsg dnsMsg dnsMsg dnsMsg
    false false false rfl rfl rfl rfl rfl).2.2.1

/-! ## Claim C4: the HTTP/1.0 probe's outcome classification -/

/-- C4: for the HTTP/1.0 probe, any HTTP/1.x response (minor version 0 or 1)
yields `supported = true` — with the explanatory "server upgraded" detail when
the server replies 1.1 instead of 1.0 — and a TCP connection-refused failure
yields `supported = false` with `error = true` but a detail text presenting
the outcome as desirable (legacy surface absent). -/
theorem C4_http10_probe (msg proto : Str) (dns : Bool) (minor : Nat) :
    (probeHTTP10 (.doErr msg dns true) =
      { Version := "HTTP/1.0".data, Supported := false,
        Detail := "not supported (good) - TCP connection refused".data,
        Evidence := msg, Error := true }) ∧
    ((minor = 0 ∨ minor = 1) → (probeHTTP10 (.resp 1 minor proto)).Supported = true) ∧
    ((probeHTTP10 (.resp 1 0 proto)).Detail = "supported".data) ∧
    ((probeHTTP10 (.resp 1 1 proto)).Detail
      = ("server upgraded HTTP/1.0 request to ".data) ++ proto ++ (" (good)".data)) := by
  refine ⟨?_, ?_, ?_, ?_⟩
  · simp [probeHTTP10, formatHTTP10Error]
  · intro h
    rcases h with h | h <;> subst h <;> simp [probeHTTP10]
  · simp [probeHTTP10]
  · simp [probeHTTP10]

theorem C4_http10_probe_witness :
    (probeHTTP10 (.resp 1 1 ("HTTP/1.1".data))).Supported = true ∧
    probeHTTP10 (.doErr ("connect: connection refused".data) false true)
      = { Version := "HTTP/1.0".data, Supported := false,
          Detail := "not supported (good) - TCP connection refused".data,
          Evidence := "connect: connection refused".data, Error := true } :=
  ⟨(C4_http10_probe [] ("HTTP/1.1".data) false 1).2.1 (Or.inr rfl),
   (C4_http10_probe ("connect: connection refused".data) [] false 1).1⟩

/-! ## Lemmas about hostname validation -/

theorem splitOnChar_ne_nil (sep : Char) (l : Str) :
    (splitOnChar sep l).isEmpty = false := by
  cases l with
  | nil => rfl
  | cons c cs =>
    simp only [splitOnChar]
    split
    · rfl
    · split <;> rfl

theorem splitOnChar_cons_ne {sep c : Char} (h : (c == sep) = false) (l : Str) :
    ∃ g gs, splitOnChar sep (c :: l) = (c :: g) :: gs ∧ splitOnChar sep l = g :: gs := by
  cases hr : splitOnChar sep l with
  | nil =>
    have := splitOnChar_ne_nil sep l
    rw [hr] at this
    cases this
  | cons g gs =>
    refine ⟨g, gs, ?_, rfl⟩
    simp only [splitOnChar, hr, h]
    rfl

theorem dropLast_cons_of_ne {c : Char} {l : Str} (h : l ≠ []) :
    (c :: l).dropLast = c :: l.dropLast := by
  cases l with
  | nil => exact absurd rfl h
  | cons x xs => rfl

theorem isValidLabel_head_false {c : Char} (hc : isValidLabelChar c = false)
    (g : Str) : isValidLabel (c :: g) = false := by
  simp [isValidLabel, hc]

theorem isValidHostname_head_false {c : Char} (hc : isValidLabelChar c = false)
    (hd : c ≠ '.') (l : Str) : isValidHostname (c :: l) = false := by
  rw [isValidHostname]
  split
  · rfl
  · have hcd : (c == '.') = false := by
      simp [hd]
    have key : ∀ l' : Str,
        (!(splitOnChar '.' (c :: l')).isEmpty &&
          (splitOnChar '.' (c :: l')).all isValidLabel) = false := by
      intro l'
      obtain ⟨g, gs, hsplit, -⟩ := splitOnChar_cons_ne hcd l'
      rw [hsplit]
      simp [isValidLabel_head_false hc]
    by_cases he : endsWithL (c :: l) ['.'] = true
    · rw [if_pos he]
      cases l with
      | nil =>
        exfalso
        apply hd
        simp [endsWithL, startsWithL] at he
        exact he
      | cons x xs =>
        rw [dropLast_cons_of_ne (by simp)]
        exact key _
    · rw [if_neg he]
      exact key l

theorem parseIP_head_false {c : Char} (h1 : isDigitC c = false)
    (hhex : isHexDigitC c = false) (hd : c ≠ '.') (hcol : c ≠ ':') (l : Str) :
    parseIP (c :: l) = false := by
  rw [parseIP]
  have hcd : (c == '.') = false := by simp [hd]
  have hip4 : isIPv4 (c :: l) = false := by
    simp only [isIPv4]
    obtain ⟨g, gs, hsplit, -⟩ := splitOnChar_cons_ne hcd l
    rw [hsplit]
    simp [List.all_cons, h1]
  have hip6 : isIPv6 (c :: l) = false := by
    simp only [isIPv6]
    have hcc : (isHexDigitC c || (c == ':')) = false := by simp [hhex, hcol]
    simp [List.all_cons, hcc]
  rw [hip4, hip6]
  rfl

theorem isValidHostname_eq_spec {host : Str} (h : endsWithL host ['.'] = false) :
    isValidHostname host = specValidHostname host := by
  by_cases he : host = []
  · subst he; decide
  · rw [isValidHostname, specValidHostname]
    have hie : host.isEmpty = false := by simp [he]
    by_cases hl : 253 < host.length
    · rw [if_pos]
      · have hnle : ¬(host.length ≤ 253) := Nat.not_le.mpr hl
        simp [hnle]
      · simp [hie, hl]
    · rw [if_neg]
      · rw [if_neg (by simp [h])]
        have hlen : host.length ≤ 253 := Nat.le_of_not_lt hl
        have hne := splitOnChar_ne_nil '.' host
        simp [hlen, hne]
      · simp [hie, hl]

theorem urlParse_scheme_of_not_http {s : Str} {u : GoURL}
    (hs : startsWithL s ("http://".data) = false) (h : urlParse s = some u) :
    u.scheme = "https".data := by
  unfold urlParse at h
  rw [if_neg (by rw [hs]; exact Bool.false_ne_true)] at h
  by_cases h2 : startsWithL s ("https://".data) = true
  · rw [if_pos h2] at h
    exact (parseAuthority_elim h).1
  · rw [if_neg h2] at h
    cases h

theorem urlString_startsWith_https {u : GoURL} (h : u.scheme = "https".data) :
    startsWithL (urlString u) ("https://".data) = true := by
  have hfold : ("https".data : Str) ++ ("://".data) = ("https://".data) := rfl
  have hUS : urlString u = ("https://".data) ++ (u.hostport ++ u.rest) := by
    rw [urlString, h]
    simp only [← hfold, List.append_assoc]
    rfl
  rw [hUS]
  exact startsWithL_append_self _ _

/-! ## Claim C6: target normalization -/

/-- C6 is false as stated: the host `"example.com."` is neither an IP literal
nor valid under the claim's DNS-label syntax (its final label, after the
trailing dot, is empty), yet `normalizeURL` accepts it — `isValidHostname`
strips one trailing dot (FQDN form) before the label checks
(`check.go:74-77`) — and a full four-probe scan is run instead of the claimed
synthetic error result. -/
theorem C6_counterexample :
    parseIP ("example.com.".data) = false ∧
    specValidHostname ("example.com.".data) = false ∧
    normalizeURL ("example.com.".data) = .ok ("https://example.com.".data) ∧
    (runChecks netProbeOk ("example.com.".data) []).Results.map VersionResult.Version
      = ["HTTP/1.0".data, "HTTP/1.1".data, "HTTP/2.0".data, "HTTP/3.0".data] :=
  ⟨rfl, rfl, rfl, rfl⟩

/-- C6 (amended): target normalization behaves as claimed — default scheme
`https` when neither prefix is present; parse failures, empty hosts,
`localhost` (case-insensitively, via ASCII lower-casing) rejected; hosts that
are neither IP literals nor valid hostnames rejected; a rejection produces the
single sentinel result and consults no network oracle — with one amendment:
`isValidHostname` strips a single trailing dot (FQDN form) before applying the
claimed label syntax, so on hosts without a trailing dot it coincides with the
claimed rule (`specValidHostname`), while hosts like `"example.com."` are
accepted. -/
theorem C6_normalization (raw : Str) :
    (urlParse (withDefaultScheme raw) = none → ∃ e, normalizeURL raw = .error e) ∧
    (∀ u, urlParse (withDefaultScheme raw) = some u →
      ((∃ norm, normalizeURL raw = .ok norm) ↔
        (urlHostname u.hostport ≠ [] ∧
         toLowerL (urlHostname u.hostport) ≠ "localhost".data ∧
         (parseIP (urlHostname u.hostport) = true ∨
          isValidHostname (urlHostname u.hostport) = true)))) ∧
    (startsWithL raw ("http://".data) = false →
      startsWithL raw ("https://".data) = false →
      ∀ norm, normalizeURL raw = .ok norm →
        startsWithL norm ("https://".data) = true) ∧
    (∀ e, normalizeURL raw = .error e →
      (∀ net net' op, runChecks net raw op = runChecks net' raw op) ∧
      (∀ net op, (runChecks net raw op).Results.map VersionResult.Version
        = ["error".data])) ∧
    (∀ host : Str, endsWithL host ['.'] = false →
      isValidHostname host = specValidHostname host) := by
  refine ⟨?_, ?_, ?_, ?_, ?_⟩
  · intro hp
    refine ⟨"invalid URL".data, ?_⟩
    simp [normalizeURL, hp]
  · intro u hu
    constructor
    · rintro ⟨norm, hn⟩
      obtain ⟨u', hp', -, -, -, hh, hloc, hv⟩ := normalizeURL_ok_elim hn
      rw [hu] at hp'
      injection hp' with h'
      subst h'
      exact ⟨hh, hloc, hv⟩
    · rintro ⟨hh, hloc, hv⟩
      exact ⟨_, normalizeURL_ok_of hu hh hloc hv⟩
  · intro hA hB norm hn
    obtain ⟨u, hp, -, hnorm, -, -, -⟩ := normalizeURL_ok_elim hn
    have hdef : withDefaultScheme raw = ("https://".data) ++ raw := by
      rw [withDefaultScheme, if_pos]
      simp [hA, hB]
    rw [hdef] at hp
    have hsch := urlParse_scheme_of_not_http (startsWithL_https_not_http raw) hp
    rw [hnorm]
    exact urlString_startsWith_https hsch
  · intro e he
    constructor
    · intro net net' op
      rw [runChecks_error he, runChecks_error he]
    · intro net op
      rw [runChecks_error he]
      rfl
  · intro host hnd
    exact isValidHostname_eq_spec hnd

theorem C6_normalization_witness :
    (∃ norm, normalizeURL ("cloudflare.com".data) = .ok norm) ∧
    (∀ net net' op, runChecks net ("bad host".data) op
      = runChecks net' ("bad host".data) op) ∧
    isValidHostname ("example.com".data) = specValidHostname ("example.com".data) := by
  refine ⟨?_, ?_, ?_⟩
  · exact ((C6_normalization ("cloudflare.com".data)).2.1
      ⟨"https".data, "cloudflare.com".data, []⟩ rfl).mpr
      ⟨by decide, by decide, Or.inr (by decide)⟩
  · exact ((C6_normalization ("bad host".data)).2.2.2.1 ("invalid URL".data) rfl).1
  · exact (C6_normalization []).2.2.2.2 ("example.com".data) (by decide)

/-- On the valid path the host extracted for `net.JoinHostPort` is never
empty: an authority that would make it empty is either rejected by the URL
parser's port validation, or produces an empty or bracket-polluted hostname
that fails `normalizeURL`'s hostname checks. -/
theorem runChecksHost_ne_nil {hp : Str}
    (hOK : parseHostOK hp = true)
    (hh : urlHostname hp ≠ [])
    (hv : parseIP (urlHostname hp) = true ∨ isValidHostname (urlHostname hp) = true) :
    (match netSplitHostPort hp with
      | some p => p.1
      | none => hp) ≠ [] := by
  cases hsp : netSplitHostPort hp with
  | none =>
    show hp ≠ []
    intro hnil
    apply hh
    rw [hnil]
    rfl
  | some pr =>
    show pr.1 ≠ []
    obtain ⟨h1, p1⟩ := pr
    intro hnil
    simp only at hnil
    subst hnil
    rw [netSplitHostPort] at hsp
    cases hlc : splitAtLastChar ':' hp with
    | none => rw [hlc] at hsp; cases hsp
    | some ba =>
      obtain ⟨b, a⟩ := ba
      rw [hlc] at hsp
      dsimp only at hsp
      obtain ⟨hdec, hna⟩ := splitAtLastChar_some hlc
      by_cases hbr : startsWithL hp ['['] = true
      · rw [if_pos hbr] at hsp
        cases hfc : splitAtFirstChar ']' hp with
        | none => rw [hfc] at hsp; cases hsp
        | some b2a2 =>
          obtain ⟨b2, a2⟩ := b2a2
          rw [hfc] at hsp
          dsimp only at hsp
          by_cases ha2 : (a2 == ':' :: a) = true
          · rw [if_pos ha2] at hsp
            injection hsp with hsp'
            rw [Prod.mk.injEq] at hsp'
            obtain ⟨hb2drop, -⟩ := hsp'
            obtain ⟨hfdec, hnb2⟩ := splitAtFirstChar_some hfc
            cases b2 with
            | nil =>
              rw [hfdec] at hbr
              simp [startsWithL] at hbr
            | cons c b2' =>
              have hb2' : b2' = [] := by simpa using hb2drop
              subst hb2'
              have hc : c = '[' := by
                rw [hfdec] at hbr
                simpa [startsWithL] using hbr
              have ha2' : a2 = ':' :: a := beq_iff_eq.mp ha2
              have hhp : hp = '[' :: ']' :: ':' :: a := by
                rw [hfdec, hc, ha2']
                rfl
              have hlc2 : splitAtLastChar ':' hp = some (['[', ']'], a) := by
                rw [hhp]
                exact splitAtLastChar_append a hna ['[', ']']
              by_cases hdig : a.all isDigitC = true
              · apply hh
                simp only [urlHostname, splitHostPortURL, hlc2, hdig, if_true]
                rw [if_pos (by decide)]
                rfl
              · have hnodig : a.all isDigitC = false := Bool.eq_false_iff.mpr hdig
                by_cases hend : endsWithL hp [']'] = true
                · have hane : a ≠ [] := by
                    intro h0
                    subst h0
                    rw [hhp] at hend
                    exact absurd hend (by decide)
                  have hhost : urlHostname hp = ']' :: (':' :: a).dropLast := by
                    simp only [urlHostname, splitHostPortURL, hlc2, hnodig,
                      if_false, Bool.false_eq_true]
                    rw [if_pos (by rw [hbr, hend]; rfl)]
                    rw [hhp]
                    show ((']' :: ':' :: a).dropLast) = _
                    exact dropLast_cons_of_ne (by simp)
                  rcases hv with hv | hv
                  · rw [hhost,
                      parseIP_head_false (by decide) (by decide) (by decide) (by decide)] at hv
                    cases hv
                  · rw [hhost, isValidHostname_head_false (by decide) (by decide)] at hv
                    cases hv
                · have hendf : endsWithL hp [']'] = false :=
                    Bool.eq_false_iff.mpr hend
                  have hhost : urlHostname hp = hp := by
                    simp only [urlHostname, splitHostPortURL, hlc2, hnodig,
                      if_false, Bool.false_eq_true]
                    rw [if_neg (by rw [hendf]; simp)]
                  rcases hv with hv | hv
                  · rw [hhost, hhp,
                      parseIP_head_false (by decide) (by decide) (by decide) (by decide)] at hv
                    cases hv
                  · rw [hhost, hhp,
                      isValidHostname_head_false (by decide) (by decide)] at hv
                    cases hv
          · rw [if_neg ha2] at hsp
            cases hsp
      · rw [if_neg hbr] at hsp
        by_cases hbc : b.contains ':' = true
        · rw [if_pos hbc] at hsp
          cases hsp
        · rw [if_neg hbc] at hsp
          injection hsp with hsp'
          rw [Prod.mk.injEq] at hsp'
          obtain ⟨hb, -⟩ := hsp'
          subst hb
          have hOK' := hOK
          simp only [parseHostOK, Bool.and_eq_true] at hOK'
          obtain ⟨-, hrest⟩ := hOK'
          rw [if_neg hbr, hlc] at hrest
          dsimp only at hrest
          apply hh
          simp [urlHostname, splitHostPortURL, hlc, hrest, startsWithL]

/-! ## Claim C7: port resolution precedence -/

/-- C7: for every valid target, the port recorded in `CheckResult.Port` is
resolved with precedence: explicit override, else the port embedded in the
input URL, else the scheme default (80 for `http`, 443 otherwise); the URL is
rebuilt with that port embedded explicitly (after a `:`), and the target
`"cloudflare.com"` with no override yields URL
`https://cloudflare.com:443`. -/
theorem C7_port_resolution (net : Network) (target op norm : Str)
    (hn : normalizeURL target = .ok norm) :
    ∃ u, urlParse norm = some u ∧
      (runChecks net target op).Port =
        (if op ≠ [] then op
         else if urlPort u.hostport ≠ [] then urlPort u.hostport
         else if u.scheme = "http".data then "80".data else "443".data) ∧
      (∃ hostStr, (runChecks net target op).URL
        = u.scheme ++ ("://".data) ++ hostStr ++
            ':' :: ((runChecks net target op).Port ++ u.rest)) ∧
      (runChecks netProbeOk ("cloudflare.com".data) []).Port = "443".data ∧
      (runChecks netProbeOk ("cloudflare.com".data) []).URL
        = "https://cloudflare.com:443".data := by
  obtain ⟨u, -, -, -, hu, hh, -, hv⟩ := normalizeURL_ok_elim hn
  refine ⟨u, hu, ?_, ?_, rfl, rfl⟩
  · rw [runChecks_ok hn hu]
    show resolvePort op u = _
    rw [resolvePort]
    by_cases hop : op = []
    · subst hop
      simp only [List.isEmpty_nil, if_true, ne_eq, not_true_eq_false, if_false]
      by_cases hup : urlPort u.hostport = []
      · rw [hup]
        simp only [List.isEmpty_nil, if_true, ne_eq, not_true_eq_false, if_false]
        by_cases hsch : u.scheme = "http".data
        · simp [hsch]
        · simp [hsch]
      · have hie : (urlPort u.hostport).isEmpty = false := by simp [hup]
        simp [hie, hup]
    · have hie : op.isEmpty = false := by simp [hop]
      simp [hie, hop]
  · rw [runChecks_ok hn hu]
    show ∃ hostStr, urlWithPortOf u (resolvePort op u)
      = u.scheme ++ ("://".data) ++ hostStr ++
          ':' :: (resolvePort op u ++ u.rest)
    have hOK := (urlParse_elim hu).2.1
    have hne := runChecksHost_ne_nil hOK hh hv
    rw [urlWithPortOf]
    generalize hH : (match netSplitHostPort u.hostport with
      | some p => p.1
      | none => u.hostport) = hostV at hne ⊢
    have hie : hostV.isEmpty = false := by simp [hne]
    rw [hie]
    simp only [Bool.not_false, if_true]
    rw [joinHostPort]
    by_cases hcol : hostV.contains ':' = true
    · refine ⟨'[' :: hostV ++ [']'], ?_⟩
      rw [if_pos hcol]
      simp [List.append_assoc]
    · refine ⟨hostV, ?_⟩
      rw [if_neg hcol]
      simp [List.append_assoc]

theorem C7_port_resolution_witness :
    (runChecks netProbeOk ("cloudflare.com".data) []).Port = "443".data ∧
    (runChecks netProbeOk ("cloudflare.com".data) []).URL
      = "https://cloudflare.com:443".data := by
  obtain ⟨u, -, -, -, hex1, hex2⟩ :=
    C7_port_resolution netProbeOk ("cloudflare.com".data) []
      ("https://cloudflare.com".data) rfl
  exact ⟨hex1, hex2⟩

/-! ## Lemmas about the result cache -/

theorem not_mem_erase_self {l : List Str} {key : Str} (h : l.Nodup) :
    key ∉ l.erase key := by
  induction l with
  | nil => simp
  | cons x xs ih =>
    rw [List.erase_cons]
    obtain ⟨hx, hxs⟩ := List.nodup_cons.mp h
    by_cases hxk : x = key
    · rw [if_pos (by simp [hxk])]
      rw [hxk] at hx
      exact hx
    · rw [if_neg (by simp [hxk])]
      intro hmem
      rcases List.mem_cons.mp hmem with h1 | h2
      · exact hxk h1.symm
      · exact ih hxs h2

theorem set_data_self (c : ResultCache) (now : Nat) (key : Str)
    (res : List CheckResult) (incl : Bool) :
    (c.set now key res incl).data key = some ⟨res, now, now + cacheTTL, !incl⟩ := by
  simp only [ResultCache.set]
  simp

theorem set_recentKeys_true (c : ResultCache) (now : Nat) (key : Str)
    (res : List CheckResult) :
    (c.set now key res true).recentKeys =
      ((c.recentKeys.erase key ++ [key]).drop
        ((c.recentKeys.erase key ++ [key]).length - maxRecentKeys)) := by
  simp only [ResultCache.set, if_true]
  by_cases hlen : maxRecentKeys < (c.recentKeys.erase key ++ [key]).length
  · rw [if_pos hlen]
  · rw [if_neg hlen]
    have h0 : (c.recentKeys.erase key ++ [key]).length - maxRecentKeys = 0 := by
      omega
    rw [h0, List.drop_zero]

theorem set_recentKeys_false (c : ResultCache) (now : Nat) (key : Str)
    (res : List CheckResult) :
    (c.set now key res false).recentKeys = c.recentKeys := rfl

theorem snapshotsLoop_length (dat : Str → Option CacheEntry) (now limit : Nat) :
    ∀ (ks : List Str) (acc : List recentSnapshot), acc.length ≤ limit →
      (snapshotsLoop dat now limit ks acc).length ≤ limit := by
  intro ks
  induction ks with
  | nil => intro acc h; exact h
  | cons k ks ih =>
    intro acc h
    rw [snapshotsLoop]
    by_cases hstop : limit ≤ acc.length
    · rw [if_pos hstop]; exact h
    · rw [if_neg hstop]
      cases hdk : dat k with
      | none => exact ih acc h
      | some e =>
        dsimp only
        by_cases hskip : (e.expiresAt < now || e.hidden) = true
        · rw [if_pos hskip]; exact ih acc h
        · rw [if_neg hskip]
          apply ih
          rw [List.length_append, List.length_take]
          omega

theorem snapshotsLoop_sound (dat : Str → Option CacheEntry) (now limit : Nat) :
    ∀ (ks : List Str) (acc : List recentSnapshot) (s : recentSnapshot),
      s ∈ snapshotsLoop dat now limit ks acc →
      s ∈ acc ∨ ∃ k, k ∈ ks ∧ ∃ e, dat k = some e ∧ e.hidden = false ∧
        ¬(e.expiresAt < now) ∧ s ∈ e.results.map (mkSnapshot e.scannedAt) := by
  intro ks
  induction ks with
  | nil => intro acc s hs; exact Or.inl hs
  | cons k ks ih =>
    intro acc s hs
    rw [snapshotsLoop] at hs
    by_cases hstop : limit ≤ acc.length
    · rw [if_pos hstop] at hs; exact Or.inl hs
    · rw [if_neg hstop] at hs
      cases hdk : dat k with
      | none =>
        rw [hdk] at hs
        rcases ih acc s hs with h1 | ⟨k', hk', rest⟩
        · exact Or.inl h1
        · exact Or.inr ⟨k', List.mem_cons_of_mem k hk', rest⟩
      | some e =>
        rw [hdk] at hs
        dsimp only at hs
        by_cases hskip : (e.expiresAt < now || e.hidden) = true
        · rw [if_pos hskip] at hs
          rcases ih acc s hs with h1 | ⟨k', hk', rest⟩
          · exact Or.inl h1
          · exact Or.inr ⟨k', List.mem_cons_of_mem k hk', rest⟩
        · rw [if_neg hskip] at hs
          have hnot : e.hidden = false ∧ ¬(e.expiresAt < now) := by
            constructor
            · rcases Bool.eq_false_or_eq_true e.hidden with h1 | h1
              · exact absurd (by rw [h1]; simp) hskip
              · exact h1
            · intro hlt
              apply hskip
              simp only [Bool.or_eq_true, decide_eq_true_eq]
              exact Or.inl hlt
          rcases ih _ s hs with h1 | ⟨k', hk', rest⟩
          · rcases List.mem_append.mp h1 with h2 | h2
            · exact Or.inl h2
            · refine Or.inr ⟨k, List.mem_cons_self k ks, e, hdk, hnot.1, hnot.2, ?_⟩
              exact List.mem_of_mem_take h2
          · exact Or.inr ⟨k', List.mem_cons_of_mem k hk', rest⟩

theorem recentSnapshots_length (c : ResultCache) (now limit : Nat) :
    (c.recentSnapshots now limit).length ≤ limit := by
  rw [ResultCache.recentSnapshots]
  by_cases h0 : limit = 0
  · rw [if_pos h0]; simp
  · rw [if_neg h0]
    exact snapshotsLoop_length _ _ _ _ [] (by simp)

theorem recentSnapshots_sound (c : ResultCache) (now limit : Nat)
    (s : recentSnapshot) (hs : s ∈ c.recentSnapshots now limit) :
    ∃ k, k ∈ c.recentKeys ∧ ∃ e, c.data k = some e ∧ e.hidden = false ∧
      ¬(e.expiresAt < now) ∧ s ∈ e.results.map (mkSnapshot e.scannedAt) := by
  rw [ResultCache.recentSnapshots] at hs
  by_cases h0 : limit = 0
  · rw [if_pos h0] at hs; cases hs
  · rw [if_neg h0] at hs
    rcases snapshotsLoop_sound _ _ _ _ [] s hs with h1 | ⟨k, hk, rest⟩
    · cases h1
    · exact ⟨k, List.mem_reverse.mp hk, rest⟩

/-! ## Claim C8: cache `get` semantics -/

/-- A one-entry cache written at time 0, used in concrete cache examples. -/
def c8cache : ResultCache := newResultCache.set 0 ("a.com".data) [] true

/-- C8 is false as stated: at the exact expiry instant — `now` equal to
`scannedAt + TTL`, so the elapsed time equals the TTL and is not strictly less
than it — `get` still returns the entry, because `entry.ExpiresAt.Before(now)`
(`web.go:50`) is a strict comparison.  The claimed "hit iff elapsed < TTL"
therefore fails at this boundary. -/
theorem C8_counterexample :
    c8cache.get cacheTTL ("a.com".data) = some ([], 0) ∧
    ¬(cacheTTL - 0 < cacheTTL) := by
  constructor
  · rfl
  · simp

/-- C8 (amended): `get` returns the cached results and scan timestamp iff an
entry for the key exists and its expiry has not strictly passed —
equivalently, under the `expiresAt = scannedAt + TTL` invariant maintained by
`set`, iff the elapsed time since the scan is at most (not strictly less than)
the 4-hour TTL.  An entry whose expiry is strictly in the past is never
returned, even if still physically present in the store. -/
theorem C8_get_iff (c : ResultCache) (now : Nat) (key : Str)
    (hinv : ∀ e, c.data key = some e → e.expiresAt = e.scannedAt + cacheTTL) :
    (∀ e, c.data key = some e → e.expiresAt < now → c.get now key = none) ∧
    ((∃ res t, c.get now key = some (res, t)) ↔
      (∃ e, c.data key = some e ∧ now - e.scannedAt ≤ cacheTTL)) ∧
    (∀ res t, c.get now key = some (res, t) →
      ∃ e, c.data key = some e ∧ e.results = res ∧ e.scannedAt = t) := by
  refine ⟨?_, ?_, ?_⟩
  · intro e he hlt
    simp only [ResultCache.get, he]
    rw [if_pos hlt]
  · constructor
    · rintro ⟨res, t, hget⟩
      simp only [ResultCache.get] at hget
      cases he : c.data key with
      | none => rw [he] at hget; cases hget
      | some e =>
        rw [he] at hget
        dsimp only at hget
        by_cases hlt : e.expiresAt < now
        · rw [if_pos hlt] at hget; cases hget
        · rw [if_neg hlt] at hget
          have hi := hinv e he
          exact ⟨e, rfl, by omega⟩
    · rintro ⟨e, he, hle⟩
      simp only [ResultCache.get, he]
      rw [if_neg (by have hi := hinv e he; omega)]
      exact ⟨e.results, e.scannedAt, rfl⟩
  · intro res t hget
    simp only [ResultCache.get] at hget
    cases he : c.data key with
    | none => rw [he] at hget; cases hget
    | some e =>
      rw [he] at hget
      dsimp only at hget
      by_cases hlt : e.expiresAt < now
      · rw [if_pos hlt] at hget; cases hget
      · rw [if_neg hlt] at hget
        injection hget with hget'
        rw [Prod.mk.injEq] at hget'
        exact ⟨e, rfl, hget'.1, hget'.2⟩

theorem C8_get_iff_witness :
    ∃ res t, c8cache.get 5 ("a.com".data) = some (res, t) := by
  have hinv : ∀ e : CacheEntry, c8cache.data ("a.com".data) = some e →
      e.expiresAt = e.scannedAt + cacheTTL := by
    intro e he
    have hc : c8cache.data ("a.com".data)
        = some ⟨[], 0, 0 + cacheTTL, false⟩ := rfl
    rw [hc] at he
    injection he with he'
    rw [← he']
  exact (C8_get_iff c8cache 5 ("a.com".data) hinv).2.1.mpr
    ⟨⟨[], 0, 0 + cacheTTL, false⟩, rfl, by decide⟩

/-! ## Claim C9: the recent-keys MRU index -/

/-- C9: `set` with `includeInRecent = true` removes any prior occurrence of
the key, appends it (most recent last) and drops the oldest keys beyond 32,
preserving de-duplication and the 32-key bound; `set` with
`includeInRecent = false` leaves the index unchanged; and `recentSnapshots`
walks the index (most- to least-recent), only ever surfacing rows drawn from
present, unexpired, non-hidden entries, and never returns more than the
requested limit. -/
theorem C9_recent_index (c : ResultCache) (now : Nat) (key : Str)
    (res : List CheckResult) :
    (c.recentKeys.Nodup → c.recentKeys.length ≤ 32 →
      (c.set now key res true).recentKeys =
        ((c.recentKeys.erase key ++ [key]).drop
          ((c.recentKeys.erase key ++ [key]).length - 32)) ∧
      (c.set now key res true).recentKeys.Nodup ∧
      (c.set now key res true).recentKeys.length ≤ 32 ∧
      (∃ pre, (c.set now key res true).recentKeys = pre ++ [key])) ∧
    ((c.set now key res false).recentKeys = c.recentKeys) ∧
    (∀ limit now', (c.recentSnapshots now' limit).length ≤ limit) ∧
    (∀ limit now' s, s ∈ c.recentSnapshots now' limit →
      ∃ k, k ∈ c.recentKeys ∧ ∃ e, c.data k = some e ∧ e.hidden = false ∧
        ¬(e.expiresAt < now') ∧ s ∈ e.results.map (mkSnapshot e.scannedAt)) := by
  refine ⟨?_, set_recentKeys_false c now key res,
    fun limit now' => recentSnapshots_length c now' limit,
    fun limit now' s hs => recentSnapshots_sound c now' limit s hs⟩
  intro hnd hlen
  have heq := set_recentKeys_true c now key res
  have hsub : List.Sublist (c.recentKeys.erase key) c.recentKeys :=
    List.erase_sublist key c.recentKeys
  have hlen' : (c.recentKeys.erase key).length ≤ 32 :=
    le_trans hsub.length_le hlen
  have hnd1 : (c.recentKeys.erase key ++ [key]).Nodup := by
    rw [List.nodup_append]
    refine ⟨List.Nodup.sublist hsub hnd, List.nodup_singleton key, ?_⟩
    intro a ha hb
    rw [List.mem_singleton] at hb
    subst hb
    exact not_mem_erase_self hnd ha
  refine ⟨by rw [heq]; rfl, ?_, ?_, ?_⟩
  · rw [heq]
    exact List.Nodup.sublist (List.drop_sublist _ _) hnd1
  · rw [heq]
    rw [List.length_drop, List.length_append]
    simp only [List.length_singleton, maxRecentKeys]
    omega
  · rw [heq]
    have hle : (c.recentKeys.erase key ++ [key]).length - maxRecentKeys
        ≤ (c.recentKeys.erase key).length := by
      rw [List.length_append]
      simp only [List.length_singleton, maxRecentKeys]
      omega
    refine ⟨(c.recentKeys.erase key).drop
      ((c.recentKeys.erase key ++ [key]).length - maxRecentKeys), ?_⟩
    rw [List.drop_append_of_le_length hle]

theorem C9_recent_index_witness :
    (newResultCache.set 3 ("a.com".data) [] true).recentKeys = [("a.com".data)] := by
  have h := (C9_recent_index newResultCache 3 ("a.com".data) []).1 (by decide) (by decide)
  rw [h.1]
  rfl

/-! ## Claim C10: fresh web scans with no successful result stay hidden -/

/-- C10: the web handler's fresh-scan cache write stores the results under
the key with hidden status `!(!hide && hasSuccessfulResult results)`;
`hasSuccessfulResult` holds exactly when some non-unresolved target has some
supported protocol result; and when no target produced any supported protocol,
the scan is still cached but the recency index is unchanged and every row of
every recency listing is drawn from some other, non-hidden key — the scan
never surfaces, even when the user did not set the hide flag. -/
theorem C10_hidden_when_unsuccessful (c : ResultCache) (now : Nat) (key : Str)
    (results : List CheckResult) (hide : Bool) :
    ((handleScanCacheWrite c now key results hide).data key
      = some ⟨results, now, now + cacheTTL,
          !(!hide && hasSuccessfulResult results)⟩) ∧
    (hasSuccessfulResult results = true ↔
      ∃ cr, cr ∈ results ∧ cr.Unresolved = false ∧
        ∃ vr, vr ∈ cr.Results ∧ vr.Supported = true) ∧
    (hasSuccessfulResult results = false →
      (handleScanCacheWrite c now key results hide).recentKeys = c.recentKeys ∧
      (∀ now' limit s,
        s ∈ (handleScanCacheWrite c now key results hide).recentSnapshots now' limit →
        ∃ k, k ≠ key ∧
          ∃ e, (handleScanCacheWrite c now key results hide).data k = some e ∧
            e.hidden = false ∧ s ∈ e.results.map (mkSnapshot e.scannedAt))) := by
  refine ⟨?_, ?_, ?_⟩
  · exact set_data_self c now key results (!hide && hasSuccessfulResult results)
  · simp only [hasSuccessfulResult, List.any_eq_true, Bool.and_eq_true,
      Bool.not_eq_true']
  · intro hsf
    have hinc : (!hide && hasSuccessfulResult results) = false := by
      rw [hsf]; simp
    have hEq : handleScanCacheWrite c now key results hide
        = c.set now key results false := by
      show c.set now key results (!hide && hasSuccessfulResult results) = _
      rw [hinc]
    rw [hEq]
    constructor
    · exact set_recentKeys_false c now key results
    · intro now' limit s hs
      obtain ⟨k, hk, e, hdk, hhid, hexp, hmem⟩ :=
        recentSnapshots_sound _ now' limit s hs
      refine ⟨k, ?_, e, hdk, hhid, hmem⟩
      intro hkey
      subst hkey
      rw [set_data_self] at hdk
      injection hdk with hdk'
      rw [← hdk'] at hhid
      simp at hhid

theorem C10_hidden_when_unsuccessful_witness :
    (handleScanCacheWrite newResultCache 7 ("a.com".data)
      [{ Target := ("a.com".data), Unresolved := true }] false).recentKeys = [] :=
  ((C10_hidden_when_unsuccessful newResultCache 7 ("a.com".data)
      [{ Target := ("a.com".data), Unresolved := true }] false).2.2 (by decide)).1
